import Mathlib

/-!
Verification of the leojam-studio scheduling and transport subsystem.

The definitions below are a shallow embedding of the TypeScript sources:
  * the data model from `src/types/index.ts`,
  * the audio-engine scheduling logic from `src/audio/AudioEngine.ts`
    (`interpolateAutomation`, `scheduleStepSequencer`, `schedulePlaylist`,
    `scheduleAutomation`),
  * the MIDI event compilation from `src/utils/fileExport.ts`
    (`createMidiTrack`),
  * the store mutation actions from `src/store/dawStore.ts`
    (`addNote`, `updateNote`, `addAutomationPoint`, `updateAutomationPoint`,
    `removeInstrument`, `play`, `pause`, `stop`).

Numeric values (beats, seconds, velocities, normalized parameters) are
modelled as rationals; JavaScript numbers are IEEE doubles, but every claim
under scrutiny is about the exact arithmetic contract of the code.
-/

namespace Leojam

/-- Interpolation curve tag of an automation point (`types/index.ts`). -/
inductive Curve where
  | linear
  | exponential
  | step
deriving DecidableEq, Repr

/-- An automation point: `{id, time (beats), value (0-1), curve}`. -/
structure AutomationPoint where
  id : String
  time : ℚ
  value : ℚ
  curve : Curve
deriving DecidableEq, Repr

/-- Scan adjacent pairs for the segment containing `time`; mirrors the
`for` loop of `AudioEngine.interpolateAutomation` which selects the first
index `i` with `time >= points[i].time && time < points[i+1].time`. -/
def findSegment : List AutomationPoint → ℚ → Option (AutomationPoint × AutomationPoint)
  | a :: b :: rest, time =>
    if a.time ≤ time ∧ time < b.time then some (a, b)
    else findSegment (b :: rest) time
  | _, _ => none

/-- Embedding of `AudioEngine.interpolateAutomation(points, time)`:
zero points yield `0.5`; one point yields its value; `time` at or before
the first point yields the first value; `time` at or after the last point
yields the last value; otherwise the segment found by the scan is
interpolated according to the left point's curve tag. -/
def interpolateAutomation (points : List AutomationPoint) (time : ℚ) : ℚ :=
  match points with
  | [] => 1/2
  | [p] => p.value
  | p0 :: p1 :: rest =>
    if time ≤ p0.time then p0.value
    else if ((p1 :: rest).getLast (List.cons_ne_nil _ _)).time ≤ time then
      ((p1 :: rest).getLast (List.cons_ne_nil _ _)).value
    else
      match (findSegment (p0 :: p1 :: rest) time).getD (p0, p1) with
      | (s, e) =>
        match s.curve with
        | Curve.step => s.value
        | Curve.exponential =>
            s.value + (e.value - s.value) *
              (((time - s.time) / (e.time - s.time)) *
                ((time - s.time) / (e.time - s.time)))
        | Curve.linear =>
            s.value + (e.value - s.value) *
              ((time - s.time) / (e.time - s.time))

/-- `AudioEngine.getAutomationValueAtTime` delegates to the interpolator
over the lane's point list; we state claims over the point list directly. -/
def pointsSortedStrict (points : List AutomationPoint) : Prop :=
  points.Pairwise (fun a b => a.time < b.time)

instance (points : List AutomationPoint) : Decidable (pointsSortedStrict points) := by
  unfold pointsSortedStrict
  exact List.instDecidablePairwise points

/-- The local `beatsToSeconds` closure used by `schedulePlaylist` and
`scheduleAutomation`: `(beats) => (60 / bpm) * beats`. -/
def beatsToSeconds (beats bpm : ℚ) : ℚ :=
  (60 / bpm) * beats

/-- Modelled from the spec: no `secondsToBeats` function exists in the
repository sources; the spec's round-trip property (§8) determines it as
the inverse of `beatsToSeconds`, i.e. `seconds * bpm / 60`. -/
def secondsToBeats (seconds bpm : ℚ) : ℚ :=
  seconds * bpm / 60

lemma time_mono_get (l : List AutomationPoint) (hs : pointsSortedStrict l)
    {i j : ℕ} (hij : i ≤ j) (hj : j < l.length) :
    (l.get ⟨i, lt_of_le_of_lt hij hj⟩).time ≤ (l.get ⟨j, hj⟩).time := by
  rcases eq_or_lt_of_le hij with h | h
  · subst h
    rfl
  · exact le_of_lt (List.pairwise_iff_get.mp hs ⟨i, lt_of_le_of_lt hij hj⟩ ⟨j, hj⟩ h)

lemma head_time_le (x : AutomationPoint) (l : List AutomationPoint)
    (hs : pointsSortedStrict (x :: l)) (i : ℕ) (a : AutomationPoint)
    (ha : (x :: l).get? i = some a) : x.time ≤ a.time := by
  obtain ⟨hi, hget⟩ := List.get?_eq_some.mp ha
  have h0 : ((x :: l).get ⟨0, Nat.zero_lt_succ _⟩).time ≤ ((x :: l).get ⟨i, hi⟩).time :=
    time_mono_get (x :: l) hs (Nat.zero_le i) hi
  rw [hget] at h0
  simpa using h0

lemma time_le_getLast (l : List AutomationPoint) (hne : l ≠ [])
    (hs : pointsSortedStrict l) (j : ℕ) (b : AutomationPoint)
    (hb : l.get? j = some b) : b.time ≤ (l.getLast hne).time := by
  obtain ⟨hj, hget⟩ := List.get?_eq_some.mp hb
  rw [List.getLast_eq_get]
  have hle : j ≤ l.length - 1 := Nat.le_sub_one_of_lt hj
  have h2 := time_mono_get l hs hle (Nat.sub_lt (List.length_pos.mpr hne) Nat.one_pos)
  rw [hget] at h2
  exact h2

lemma findSegment_eq (points : List AutomationPoint) (time : ℚ) :
    ∀ (i : ℕ) (a b : AutomationPoint), pointsSortedStrict points →
    points.get? i = some a → points.get? (i + 1) = some b →
    a.time < time → time < b.time →
    findSegment points time = some (a, b) := by
  induction points with
  | nil =>
    intro i a b _ ha _ _ _
    simp at ha
  | cons x tail ih =>
    intro i a b hs ha hb h1 h2
    match tail, hb with
    | y :: rest, hb =>
      cases i with
      | zero =>
        simp only [List.get?] at ha hb
        obtain rfl : x = a := by simpa using ha
        obtain rfl : y = b := by simpa using hb
        simp [findSegment, le_of_lt h1, h2]
      | succ n =>
        simp only [List.get?] at ha hb
        have hs' : pointsSortedStrict (y :: rest) :=
          (List.pairwise_cons.mp hs).2
        have hy : y.time ≤ a.time := head_time_le y rest hs' n a ha
        have hguard : ¬(x.time ≤ time ∧ time < y.time) := by
          intro hc
          exact absurd hc.2 (not_lt.mpr (le_of_lt (lt_of_le_of_lt hy h1)))
        rw [findSegment, if_neg hguard]
        exact ih n a b hs' ha hb h1 h2

/-- C1: the automation interpolator satisfies the spec's piecewise
contract: `[] ↦ 0.5`; a single point yields its value everywhere; a query
at or before the first point yields the first value; at or after the last
point, the last value; strictly inside an adjacent segment the value is
computed from the left point's curve tag (`linear`, `exponential` with
squared fraction, or `step`). -/
theorem interpolateAutomation_contract (time : ℚ) :
    (interpolateAutomation [] time = 1/2)
    ∧ (∀ p : AutomationPoint, interpolateAutomation [p] time = p.value)
    ∧ (∀ (p0 : AutomationPoint) (rest : List AutomationPoint),
        time ≤ p0.time → interpolateAutomation (p0 :: rest) time = p0.value)
    ∧ (∀ (points : List AutomationPoint) (pl : AutomationPoint),
        pointsSortedStrict points → points.getLast? = some pl → pl.time ≤ time →
        interpolateAutomation points time = pl.value)
    ∧ (∀ (points : List AutomationPoint) (i : ℕ) (a b : AutomationPoint),
        pointsSortedStrict points →
        points.get? i = some a → points.get? (i + 1) = some b →
        a.time < time → time < b.time →
        interpolateAutomation points time =
          (match a.curve with
           | Curve.step => a.value
           | Curve.exponential =>
               a.value + (b.value - a.value) *
                 (((time - a.time) / (b.time - a.time)) *
                   ((time - a.time) / (b.time - a.time)))
           | Curve.linear =>
               a.value + (b.value - a.value) *
                 ((time - a.time) / (b.time - a.time)))) := by
  refine ⟨rfl, fun p => rfl, ?_, ?_, ?_⟩
  · intro p0 rest hle
    match rest with
    | [] => rfl
    | p1 :: rest => simp [interpolateAutomation, hle]
  · intro points pl hs hlast hle
    match points with
    | [] => simp at hlast
    | [p] =>
      obtain rfl : p = pl := by simpa using hlast
      rfl
    | p0 :: p1 :: rest =>
      have hne : p1 :: rest ≠ [] := List.cons_ne_nil _ _
      have hpl : pl = (p1 :: rest).getLast hne := by
        have h1 : (p0 :: p1 :: rest).getLast? =
            some ((p0 :: p1 :: rest).getLast (List.cons_ne_nil _ _)) :=
          List.getLast?_eq_getLast_of_ne_nil _
        rw [h1] at hlast
        have h2 : (p0 :: p1 :: rest).getLast (List.cons_ne_nil _ _) =
            (p1 :: rest).getLast hne := List.getLast_cons hne
        simpa [h2] using hlast.symm
      have hmem : (p1 :: rest).getLast hne ∈ p1 :: rest := List.getLast_mem hne
      have hlt : p0.time < pl.time := by
        rw [hpl]
        exact (List.pairwise_cons.mp hs).1 _ hmem
      have hguard : ¬(time ≤ p0.time) :=
        not_le.mpr (lt_of_lt_of_le hlt hle)
      rw [interpolateAutomation, if_neg hguard, ← hpl, if_pos hle]
  · intro points i a b hs ha hb h1 h2
    match points, hb with
    | p0 :: p1 :: rest, hb =>
      have hne : p1 :: rest ≠ [] := List.cons_ne_nil _ _
      have hguard1 : ¬(time ≤ p0.time) := by
        have := head_time_le p0 (p1 :: rest) hs i a ha
        exact not_le.mpr (lt_of_le_of_lt this h1)
      have hbleq : b.time ≤ ((p0 :: p1 :: rest).getLast (List.cons_ne_nil _ _)).time :=
        time_le_getLast _ (List.cons_ne_nil _ _) hs (i + 1) b hb
      have hguard2 : ¬(((p1 :: rest).getLast hne).time ≤ time) := by
        rw [← List.getLast_cons hne]
        exact not_le.mpr (lt_of_lt_of_le h2 hbleq)
      have hfind : findSegment (p0 :: p1 :: rest) time = some (a, b) :=
        findSegment_eq _ time i a b hs ha hb h1 h2
      rw [interpolateAutomation, if_neg hguard1, if_neg hguard2, hfind, Option.getD_some]

/-- Concrete instantiation of the interpolation contract: a two-point
linear lane `[(0, 0.2), (4, 0.8)]` evaluated at `t = 2` yields `0.5`. -/
theorem interpolateAutomation_contract_witness :
    pointsSortedStrict
        [⟨"a", 0, 1/5, Curve.linear⟩, ⟨"b", 4, 4/5, Curve.linear⟩]
      ∧ interpolateAutomation
          [⟨"a", 0, 1/5, Curve.linear⟩, ⟨"b", 4, 4/5, Curve.linear⟩] 2 =
        (1/5 : ℚ) + (4/5 - 1/5) * ((2 - 0) / (4 - 0)) := by
  constructor
  · decide
  · exact ((interpolateAutomation_contract 2).2.2.2.2
      [⟨"a", 0, 1/5, Curve.linear⟩, ⟨"b", 4, 4/5, Curve.linear⟩] 0
      ⟨"a", 0, 1/5, Curve.linear⟩ ⟨"b", 4, 4/5, Curve.linear⟩
      (by decide) rfl rfl (by norm_num) (by norm_num))

/-! ## Step sequencer (`AudioEngine.scheduleStepSequencer`) -/

/-- One cell of a step-sequencer row (`types/index.ts`): active flag,
velocity (0-127), pitch, and optional roll subdivision (1..4). -/
structure StepSequencerStep where
  active : Bool
  velocity : ℚ
  note : String
  roll : Option ℕ
deriving DecidableEq, Repr

/-- A step-sequencer row: a fixed pitch plus a list of step cells. -/
structure StepSequencerRow where
  id : String
  name : String
  note : String
  steps : List StepSequencerStep
deriving DecidableEq, Repr

/-- A step-sequencer pattern: `steps` columns, rows, swing (0-100). -/
structure StepSequencerPattern where
  id : String
  name : String
  steps : ℕ
  rows : List StepSequencerRow
  instrumentId : String
  swing : ℚ
deriving DecidableEq, Repr

/-- A scheduled step-sequencer hit: absolute time (seconds), pitch, and
normalized velocity, as pushed into the `events` array. -/
structure StepEvent where
  time : ℚ
  note : String
  velocity : ℚ
deriving DecidableEq, Repr

/-- `stepDuration = 60 / bpm / 4` (sixteenth-note duration in seconds). -/
def stepDurationOf (bpm : ℚ) : ℚ :=
  60 / bpm / 4

/-- The hits pushed for one cell of `scheduleStepSequencer`: if the step
is active, `rollCount = step.roll || 1` hits at
`baseTime + r * (stepDuration / rollCount)` where `baseTime` adds the
swing offset `stepDuration * swingAmount * 0.5` on odd step indices;
velocity is `step.velocity / 127`. -/
def rollHits (stepDuration swingAmount : ℚ) (note : String) (stepIndex : ℕ)
    (step : StepSequencerStep) : List StepEvent :=
  if step.active then
    let swingOffset := if stepIndex % 2 = 1 then stepDuration * swingAmount * (1/2) else 0
    let baseTime := stepIndex * stepDuration + swingOffset
    let rollCount := step.roll.getD 1
    let rollDuration := stepDuration / rollCount
    (List.range rollCount).map
      (fun (r : ℕ) => ⟨baseTime + (r : ℚ) * rollDuration, note, step.velocity / 127⟩)
  else []

/-- The full event list built by `scheduleStepSequencer` (rows outer loop,
steps inner loop, hits pushed in order). -/
def stepSequencerEvents (pattern : StepSequencerPattern) (bpm : ℚ) : List StepEvent :=
  pattern.rows.flatMap (fun row =>
    row.steps.enum.flatMap
      (fun p => rollHits (stepDurationOf bpm) (pattern.swing / 100) row.note p.1 p.2))

/-- The loop period set on the `Tone.Part`:
`part.loopEnd = pattern.steps * stepDuration`. -/
def stepSequencerLoopEnd (pattern : StepSequencerPattern) (bpm : ℚ) : ℚ :=
  pattern.steps * stepDurationOf bpm

/-- C2: for a pattern with swing `s ∈ [0,100]` at tempo `bpm > 0`, an
active step at index `i` with roll `r` produces exactly `r` hits; hit `k`
falls at `i * stepDuration + k * (stepDuration / r)` when `i` is even and
at `i * stepDuration + stepDuration * (s/100) * 0.5 + k * (stepDuration / r)`
when `i` is odd, each carrying the step's velocity normalized by 127;
every such hit appears in the pattern's scheduled event list, and the
pattern loops with period `steps * stepDuration`. -/
theorem stepSequencer_timing (pattern : StepSequencerPattern) (bpm : ℚ)
    (hbpm : 0 < bpm) (hs0 : 0 ≤ pattern.swing) (hs100 : pattern.swing ≤ 100)
    (row : StepSequencerRow) (hrow : row ∈ pattern.rows)
    (i : ℕ) (step : StepSequencerStep) (hstep : row.steps.get? i = some step)
    (hact : step.active = true) (r : ℕ) (hroll : step.roll.getD 1 = r)
    (hr1 : 1 ≤ r) (hr4 : r ≤ 4) :
    (rollHits (stepDurationOf bpm) (pattern.swing / 100) row.note i step).length = r
    ∧ (i % 2 = 0 → ∀ k, k < r →
        (rollHits (stepDurationOf bpm) (pattern.swing / 100) row.note i step).get? k =
          some ⟨i * stepDurationOf bpm + k * (stepDurationOf bpm / r),
                row.note, step.velocity / 127⟩)
    ∧ (i % 2 = 1 → ∀ k, k < r →
        (rollHits (stepDurationOf bpm) (pattern.swing / 100) row.note i step).get? k =
          some ⟨i * stepDurationOf bpm +
                  stepDurationOf bpm * (pattern.swing / 100) * (1/2) +
                  k * (stepDurationOf bpm / r),
                row.note, step.velocity / 127⟩)
    ∧ (∀ e, e ∈ rollHits (stepDurationOf bpm) (pattern.swing / 100) row.note i step →
        e ∈ stepSequencerEvents pattern bpm)
    ∧ stepSequencerLoopEnd pattern bpm = pattern.steps * stepDurationOf bpm := by
  have hactive : rollHits (stepDurationOf bpm) (pattern.swing / 100) row.note i step =
      (List.range r).map (fun k =>
        ⟨(i : ℚ) * stepDurationOf bpm +
            (if i % 2 = 1 then stepDurationOf bpm * (pattern.swing / 100) * (1/2) else 0) +
            (k : ℚ) * (stepDurationOf bpm / (r : ℚ)),
          row.note, step.velocity / 127⟩) := by
    simp only [rollHits, hact, if_true, hroll]
  refine ⟨?_, ?_, ?_, ?_, rfl⟩
  · rw [hactive, List.length_map, List.length_range]
  · intro hpar k hk
    have hpar1 : ¬(i % 2 = 1) := by omega
    rw [hactive, List.get?_map, List.get?_range hk, Option.map_some']
    simp only [hpar1, if_false, Option.some.injEq, StepEvent.mk.injEq, and_true]
    ring
  · intro hpar k hk
    rw [hactive, List.get?_map, List.get?_range hk, Option.map_some']
    simp [hpar]
  · intro e he
    unfold stepSequencerEvents
    refine List.mem_flatMap.mpr ⟨row, hrow, ?_⟩
    refine List.mem_flatMap.mpr ⟨(i, step), ?_, he⟩
    exact List.mem_enum_iff_get?.mpr hstep

/-- Witness pattern for the step-sequencer claim: one row whose single
step is active with velocity 100 and roll 3, swing 50, at 120 BPM. -/
def c2Step : StepSequencerStep :=
  ⟨true, 100, "C4", some 3⟩

/-- Witness row holding `c2Step`. -/
def c2Row : StepSequencerRow :=
  ⟨"r1", "C4", "C4", [c2Step]⟩

/-- Witness pattern holding `c2Row`. -/
def c2Pattern : StepSequencerPattern :=
  ⟨"sp", "SP", 16, [c2Row], "inst", 50⟩

/-- Concrete instantiation of the step-sequencer timing theorem. -/
theorem stepSequencer_timing_witness :
    ((0 : ℚ) < 120 ∧ (0 : ℚ) ≤ c2Pattern.swing ∧ c2Pattern.swing ≤ 100
      ∧ c2Row ∈ c2Pattern.rows ∧ c2Row.steps.get? 0 = some c2Step
      ∧ c2Step.active = true ∧ c2Step.roll.getD 1 = 3)
    ∧ ((rollHits (stepDurationOf 120) (c2Pattern.swing / 100) c2Row.note 0 c2Step).length = 3
      ∧ (0 % 2 = 0 → ∀ k, k < 3 →
          (rollHits (stepDurationOf 120) (c2Pattern.swing / 100) c2Row.note 0 c2Step).get? k =
            some ⟨0 * stepDurationOf 120 + k * (stepDurationOf 120 / 3),
                  c2Row.note, c2Step.velocity / 127⟩)
      ∧ (0 % 2 = 1 → ∀ k, k < 3 →
          (rollHits (stepDurationOf 120) (c2Pattern.swing / 100) c2Row.note 0 c2Step).get? k =
            some ⟨0 * stepDurationOf 120 +
                    stepDurationOf 120 * (c2Pattern.swing / 100) * (1/2) +
                    k * (stepDurationOf 120 / 3),
                  c2Row.note, c2Step.velocity / 127⟩)
      ∧ (∀ e, e ∈ rollHits (stepDurationOf 120) (c2Pattern.swing / 100) c2Row.note 0 c2Step →
          e ∈ stepSequencerEvents c2Pattern 120)
      ∧ stepSequencerLoopEnd c2Pattern 120 = c2Pattern.steps * stepDurationOf 120) := by
  constructor
  · exact ⟨by norm_num, by decide, by decide, by decide, by decide, by decide, by decide⟩
  · exact stepSequencer_timing c2Pattern 120 (by norm_num) (by decide) (by decide)
      c2Row (by decide) 0 c2Step (by decide) (by decide) 3 (by decide)
      (by norm_num) (by norm_num)

/-! ## Time base (C3) -/

/-- C3: the musical-to-wall-clock conversion used by the schedule builders
equals `beats * 60 / bpm`, and `secondsToBeats` inverts it at the same
tempo (exact round trip over the rationals). -/
theorem beatsToSeconds_roundtrip (beats bpm : ℚ) (hbpm : 0 < bpm) (hbeats : 0 ≤ beats) :
    beatsToSeconds beats bpm = beats * 60 / bpm
    ∧ secondsToBeats (beatsToSeconds beats bpm) bpm = beats := by
  constructor
  · unfold beatsToSeconds
    ring
  · unfold beatsToSeconds secondsToBeats
    field_simp

/-- Concrete round trip: 8 beats at 120 BPM. -/
theorem beatsToSeconds_roundtrip_witness :
    (0 : ℚ) < 120 ∧ (0 : ℚ) ≤ 8
    ∧ (beatsToSeconds 8 120 = 8 * 60 / 120
      ∧ secondsToBeats (beatsToSeconds 8 120) 120 = 8) :=
  ⟨by norm_num, by norm_num, beatsToSeconds_roundtrip 8 120 (by norm_num) (by norm_num)⟩

/-! ## Playlist schedule build (`AudioEngine.schedulePlaylist`) -/

/-- A MIDI note of a pattern (`types/index.ts`): pattern-relative start
and duration in beats, velocity 0-127. -/
structure MidiNote where
  id : String
  note : String
  startTime : ℚ
  duration : ℚ
  velocity : ℚ
deriving DecidableEq, Repr

/-- A pattern: a note container bound to one instrument by id. -/
structure Pattern where
  id : String
  name : String
  color : String
  length : ℚ
  notes : List MidiNote
  instrumentId : String
deriving DecidableEq, Repr

/-- A clip placing a pattern or an audio buffer on a track. -/
structure Clip where
  id : String
  patternId : Option String
  audioBufferId : Option String
  startTime : ℚ
  duration : ℚ
  offset : ℚ
  name : String
deriving DecidableEq, Repr

/-- A track: mixer settings, clip lane, optional bound instrument. -/
structure Track where
  id : String
  name : String
  volume : ℚ
  pan : ℚ
  mute : Bool
  solo : Bool
  armed : Bool
  clips : List Clip
  effectIds : List String
  instrumentId : Option String
deriving DecidableEq, Repr

/-- The audio engine's registries consulted during a schedule build: the
`instruments`, `trackChannels` and `audioBuffers` maps, abstracted to the
sets of keys present. -/
structure EngineEnv where
  instruments : List String
  trackChannels : List String
  audioBuffers : List String
deriving DecidableEq, Repr

/-- One entry of the per-clip `events` array handed to a `Tone.Part` in
`schedulePlaylist`: absolute time, pitch, duration in seconds, and
normalized velocity. -/
structure ClipNoteEvent where
  time : ℚ
  note : String
  duration : ℚ
  velocity : ℚ
deriving DecidableEq, Repr

/-- The note events contributed by one clip in `schedulePlaylist`: the
pattern branch runs only when the clip has no audio buffer; a missing
pattern (`patterns.find`) or missing instrument
(`this.instruments.get(track.instrumentId || '')`) skips the clip. -/
def clipNoteEvents (env : EngineEnv) (bpm : ℚ) (patterns : List Pattern)
    (track : Track) (clip : Clip) : List ClipNoteEvent :=
  match clip.audioBufferId with
  | some _ => []
  | none =>
    match clip.patternId with
    | none => []
    | some pid =>
      match patterns.find? (fun p => p.id == pid) with
      | none => []
      | some pattern =>
        if env.instruments.contains (track.instrumentId.getD "") then
          pattern.notes.map (fun n =>
            ⟨beatsToSeconds (clip.startTime + n.startTime) bpm, n.note,
              beatsToSeconds n.duration bpm, n.velocity / 127⟩)
        else []

/-- The start times of `Tone.Player`s created for audio clips: requires a
registered buffer and a channel for the track. -/
def clipPlayerStarts (env : EngineEnv) (bpm : ℚ) (track : Track) (clip : Clip) : List ℚ :=
  match clip.audioBufferId with
  | some bufferId =>
    if env.audioBuffers.contains bufferId && env.trackChannels.contains track.id then
      [beatsToSeconds clip.startTime bpm]
    else []
  | none => []

/-- Note events of one track's clip list (inner loop of `schedulePlaylist`). -/
def trackClipsNoteEvents (env : EngineEnv) (bpm : ℚ) (patterns : List Pattern)
    (track : Track) (clips : List Clip) : List ClipNoteEvent :=
  clips.flatMap (clipNoteEvents env bpm patterns track)

/-- Note events contributed by one track: `if (track.mute) return` is the
only per-track gate, then every clip is visited in order. -/
def trackNoteEvents (env : EngineEnv) (bpm : ℚ) (patterns : List Pattern)
    (track : Track) : List ClipNoteEvent :=
  if track.mute then [] else trackClipsNoteEvents env bpm patterns track track.clips

/-- All note events submitted by one `schedulePlaylist` call (the union of
the per-clip `Tone.Part` event lists, in traversal order). -/
def schedulePlaylistEvents (env : EngineEnv) (bpm : ℚ) (tracks : List Track)
    (patterns : List Pattern) : List ClipNoteEvent :=
  tracks.flatMap (trackNoteEvents env bpm patterns)

/-- Automation target parameters (`types/index.ts`). -/
inductive AutomationTarget where
  | volume
  | pan
  | mute
  | effectWet
  | effectParam
  | tempo
deriving DecidableEq, Repr

/-- An automation lane (`types/index.ts`). -/
structure AutomationLane where
  id : String
  targetTrackId : String
  targetParam : AutomationTarget
  targetEffectId : Option String
  points : List AutomationPoint
  enabled : Bool
deriving DecidableEq, Repr

/-- One `Tone.Transport.schedule` registration made by `scheduleAutomation`. -/
structure AutomEvent where
  time : ℚ
  param : AutomationTarget
  value : ℚ
deriving DecidableEq, Repr

/-- Events scheduled for one lane by `scheduleAutomation`: a disabled or
empty lane is skipped, a lane whose target track has no channel is skipped
unless its parameter is `tempo`, otherwise every point is scheduled at
`beatsToSeconds(point.time)`. -/
def laneAutomationEvents (env : EngineEnv) (bpm : ℚ) (lane : AutomationLane) :
    List AutomEvent :=
  if lane.enabled = false ∨ lane.points = [] then []
  else if ¬ env.trackChannels.contains lane.targetTrackId = true
      ∧ lane.targetParam ≠ AutomationTarget.tempo then []
  else lane.points.map (fun pt => ⟨beatsToSeconds pt.time bpm, lane.targetParam, pt.value⟩)

/-- All events scheduled by one `scheduleAutomation` call. -/
def scheduleAutomationEvents (env : EngineEnv) (bpm : ℚ) (lanes : List AutomationLane) :
    List AutomEvent :=
  lanes.flatMap (laneAutomationEvents env bpm)

lemma clipNoteEvents_of_find_none (env : EngineEnv) (bpm : ℚ) (patterns : List Pattern)
    (track : Track) (clip : Clip) (pid : String)
    (hbuf : clip.audioBufferId = none) (hpid : clip.patternId = some pid)
    (hfind : patterns.find? (fun p => p.id == pid) = none) :
    clipNoteEvents env bpm patterns track clip = [] := by
  simp [clipNoteEvents, hbuf, hpid, hfind]

lemma clipNoteEvents_of_no_instrument (env : EngineEnv) (bpm : ℚ)
    (patterns : List Pattern) (track : Track) (clip : Clip)
    (hinst : env.instruments.contains (track.instrumentId.getD "") = false) :
    clipNoteEvents env bpm patterns track clip = [] := by
  unfold clipNoteEvents
  cases hbuf : clip.audioBufferId with
  | some b => rfl
  | none =>
    cases hpid : clip.patternId with
    | none => rfl
    | some pid =>
      dsimp only
      cases hfind : patterns.find? (fun p => p.id == pid) with
      | none => rfl
      | some pattern =>
        dsimp only
        rw [hinst]
        rfl

lemma laneAutomationEvents_of_no_channel (env : EngineEnv) (bpm : ℚ)
    (lane : AutomationLane)
    (hch : env.trackChannels.contains lane.targetTrackId = false)
    (hparam : lane.targetParam ≠ AutomationTarget.tempo) :
    laneAutomationEvents env bpm lane = [] := by
  unfold laneAutomationEvents
  by_cases h1 : lane.enabled = false ∨ lane.points = []
  · rw [if_pos h1]
  · rw [if_neg h1, if_pos]
    refine ⟨?_, hparam⟩
    rw [hch]
    simp

/-! ## C4: solo policy -/

/-- A track with its solo flag cleared. -/
def clearSolo (t : Track) : Track :=
  { t with solo := false }

/-- Witness data: a solo track with no clips. -/
def c4TrackA : Track :=
  ⟨"tA", "A", 4/5, 0, false, true, false, [], [], none⟩

/-- Witness data: an unmuted, non-solo track holding one pattern clip. -/
def c4TrackB : Track :=
  ⟨"tB", "B", 4/5, 0, false, false, false,
    [⟨"c1", some "p1", none, 0, 16, 0, "clip"⟩], [], some "inst1"⟩

/-- Witness data: the pattern referenced by `c4TrackB`. -/
def c4Pattern : Pattern :=
  ⟨"p1", "P1", "#fff", 16, [⟨"n1", "C4", 0, 1, 100⟩], "inst1"⟩

/-- Witness data: an engine registry holding the instrument and channels. -/
def c4Env : EngineEnv :=
  ⟨["inst1"], ["tA", "tB"], []⟩

/-- C4 fails on the code: with track A solo and track B neither solo nor
muted, a schedule build still emits B's note event — `schedulePlaylist`
never consults the solo flags. -/
theorem schedulePlaylist_solo_counterexample :
    c4TrackA.solo = true ∧ c4TrackB.solo = false ∧ c4TrackB.mute = false
    ∧ schedulePlaylistEvents c4Env 120 [c4TrackA, c4TrackB] [c4Pattern]
        = [⟨0, "C4", 1/2, 100/127⟩] := by
  refine ⟨rfl, rfl, rfl, ?_⟩
  norm_num [schedulePlaylistEvents, trackNoteEvents, trackClipsNoteEvents,
    clipNoteEvents, beatsToSeconds, c4Env, c4TrackA, c4TrackB, c4Pattern]

/-- C4 amended: solo flags have no effect on a schedule build — clearing
every solo flag leaves the emitted events unchanged, and a track's clips
are suppressed exactly by its own mute flag. -/
theorem schedulePlaylist_solo_ignored (env : EngineEnv) (bpm : ℚ)
    (tracks : List Track) (patterns : List Pattern) :
    schedulePlaylistEvents env bpm (tracks.map clearSolo) patterns
      = schedulePlaylistEvents env bpm tracks patterns
    ∧ (∀ t ∈ tracks, t.mute = true → trackNoteEvents env bpm patterns t = []) := by
  constructor
  · unfold schedulePlaylistEvents
    induction tracks with
    | nil => rfl
    | cons t ts ih =>
      simp only [List.map_cons, List.flatMap_cons, ih]
      rfl
  · intro t _ hmute
    simp [trackNoteEvents, hmute]

/-- Witness data: a muted track carrying the same clip as `c4TrackB`. -/
def c4TrackM : Track :=
  ⟨"tM", "M", 4/5, 0, true, false, false,
    [⟨"c1", some "p1", none, 0, 16, 0, "clip"⟩], [], some "inst1"⟩

/-- Concrete instantiation of the amended solo claim: a muted track
contributes no events even though its clip resolves. -/
theorem schedulePlaylist_solo_ignored_witness :
    (c4TrackM ∈ [c4TrackM] ∧ c4TrackM.mute = true)
    ∧ trackNoteEvents c4Env 120 [c4Pattern] c4TrackM = [] :=
  ⟨⟨List.mem_cons_self c4TrackM [], rfl⟩,
    (schedulePlaylist_solo_ignored c4Env 120 [c4TrackM] [c4Pattern]).2
      c4TrackM (List.mem_cons_self c4TrackM []) rfl⟩

/-! ## C7: dangling references during schedule build -/

/-- Witness data: an enabled tempo lane with one point, targeting a track
that has no channel. -/
def c7Lane : AutomationLane :=
  ⟨"L1", "tX", AutomationTarget.tempo, none, [⟨"ap1", 0, 1/2, Curve.linear⟩], true⟩

/-- Witness data: an engine registry with no channels at all. -/
def c7Env : EngineEnv :=
  ⟨[], [], []⟩

/-- C7 fails as stated: a tempo lane whose target track has no channel is
not skipped — `scheduleAutomation` only skips channel-less lanes whose
parameter is not `tempo`, so the lane's point is still scheduled. -/
theorem scheduleAutomation_tempo_counterexample :
    c7Env.trackChannels.contains c7Lane.targetTrackId = false
    ∧ c7Lane.enabled = true
    ∧ laneAutomationEvents c7Env 120 c7Lane = [⟨0, AutomationTarget.tempo, 1/2⟩] := by
  refine ⟨rfl, rfl, ?_⟩
  norm_num [laneAutomationEvents, beatsToSeconds, c7Env, c7Lane]

/-- C7 amended: a clip whose pattern id does not resolve, a pattern clip
on a track whose instrument is not registered, and a channel-less lane
whose parameter is not `tempo` each contribute no events (tempo lanes are
scheduled regardless of channel); dropping such a dangling entity leaves
the rest of the build unchanged, and the build is a total function (never
throws). -/
theorem danglingReferences_skipped (env : EngineEnv) (bpm : ℚ) (patterns : List Pattern) :
    (∀ (track : Track) (clip : Clip) (pid : String),
        clip.audioBufferId = none → clip.patternId = some pid →
        patterns.find? (fun p => p.id == pid) = none →
        clipNoteEvents env bpm patterns track clip = [])
    ∧ (∀ (track : Track) (clip : Clip),
        env.instruments.contains (track.instrumentId.getD "") = false →
        clipNoteEvents env bpm patterns track clip = [])
    ∧ (∀ lane : AutomationLane,
        env.trackChannels.contains lane.targetTrackId = false →
        lane.targetParam ≠ AutomationTarget.tempo →
        laneAutomationEvents env bpm lane = [])
    ∧ (∀ (track : Track) (clips1 clips2 : List Clip) (clip : Clip),
        clipNoteEvents env bpm patterns track clip = [] →
        trackClipsNoteEvents env bpm patterns track (clips1 ++ clip :: clips2)
          = trackClipsNoteEvents env bpm patterns track (clips1 ++ clips2))
    ∧ (∀ (lanes1 lanes2 : List AutomationLane) (lane : AutomationLane),
        laneAutomationEvents env bpm lane = [] →
        scheduleAutomationEvents env bpm (lanes1 ++ lane :: lanes2)
          = scheduleAutomationEvents env bpm (lanes1 ++ lanes2)) := by
  refine ⟨?_, ?_, ?_, ?_, ?_⟩
  · intro track clip pid hbuf hpid hfind
    exact clipNoteEvents_of_find_none env bpm patterns track clip pid hbuf hpid hfind
  · intro track clip hinst
    exact clipNoteEvents_of_no_instrument env bpm patterns track clip hinst
  · intro lane hch hparam
    exact laneAutomationEvents_of_no_channel env bpm lane hch hparam
  · intro track clips1 clips2 clip hnil
    simp [trackClipsNoteEvents, List.flatMap_append, hnil]
  · intro lanes1 lanes2 lane hnil
    simp [scheduleAutomationEvents, List.flatMap_append, hnil]

/-- Witness data: a clip referencing a pattern id that resolves nowhere. -/
def c7Clip : Clip :=
  ⟨"cD", some "missing", none, 0, 4, 0, "dangling"⟩

/-- Witness data: the track holding the dangling clip. -/
def c7Track : Track :=
  ⟨"tC", "C", 4/5, 0, false, false, false, [c7Clip], [], some "i9"⟩

/-- Concrete instantiation: the dangling clip contributes no events. -/
theorem danglingReferences_skipped_witness :
    (c7Clip.audioBufferId = none ∧ c7Clip.patternId = some "missing"
      ∧ List.find? (fun p => p.id == "missing") ([] : List Pattern) = none)
    ∧ clipNoteEvents c7Env 120 [] c7Track c7Clip = [] :=
  ⟨⟨rfl, rfl, rfl⟩,
    (danglingReferences_skipped c7Env 120 []).1 c7Track c7Clip "missing" rfl rfl rfl⟩

/-! ## C6: removing an instrument (`useDAWStore.removeInstrument`) -/

/-- An instrument entity (settings bag abstracted away). -/
structure Instrument where
  id : String
  name : String
deriving DecidableEq, Repr

/-- The project aggregate (`types/index.ts`), restricted to the fields the
store mutations under scrutiny read or write. -/
structure Project where
  id : String
  name : String
  bpm : ℚ
  tracks : List Track
  patterns : List Pattern
  instruments : List Instrument
  automationLanes : List AutomationLane
  masterVolume : ℚ
deriving DecidableEq, Repr

/-- Embedding of `useDAWStore.removeInstrument`: drops the instrument,
drops every pattern bound to it, and clears matching track bindings. -/
def removeInstrument (p : Project) (instrumentId : String) : Project :=
  { p with
    instruments := p.instruments.filter (fun i => !(i.id == instrumentId)),
    patterns := p.patterns.filter (fun pat => !(pat.instrumentId == instrumentId)),
    tracks := p.tracks.map (fun t =>
      if t.instrumentId = some instrumentId then { t with instrumentId := none } else t) }

/-- Witness data: a project with one instrument and one pattern bound to it. -/
def c6Project : Project :=
  ⟨"proj", "Proj", 120, [], [⟨"p1", "P1", "#fff", 16, [⟨"n1", "C4", 0, 1, 100⟩], "inst1"⟩],
    [⟨"inst1", "Synth"⟩], [], 4/5⟩

/-- C6 fails on the code: removing the instrument referenced by the
pattern deletes the pattern itself (and its notes) from the project,
rather than leaving it orphaned. -/
theorem removeInstrument_counterexample :
    (∃ pat ∈ c6Project.patterns, pat.instrumentId = "inst1")
    ∧ (removeInstrument c6Project "inst1").patterns = [] := by
  constructor
  · exact ⟨⟨"p1", "P1", "#fff", 16, [⟨"n1", "C4", 0, 1, 100⟩], "inst1"⟩,
      List.mem_cons_self _ [], rfl⟩
  · simp [removeInstrument, c6Project]

/-- C6 amended: removing an instrument removes every pattern bound to it
(patterns with other bindings survive untouched), clears track bindings to
it, and a later schedule build over a clip whose pattern no longer
resolves emits no notes and completes without crashing. -/
theorem removeInstrument_cascade (p : Project) (iid : String) :
    (∀ pat : Pattern, pat ∈ (removeInstrument p iid).patterns ↔
        pat ∈ p.patterns ∧ pat.instrumentId ≠ iid)
    ∧ (∀ t : Track, t ∈ (removeInstrument p iid).tracks → t.instrumentId ≠ some iid)
    ∧ (∀ (env : EngineEnv) (bpm : ℚ) (track : Track) (clip : Clip) (pid : String),
        clip.audioBufferId = none → clip.patternId = some pid →
        (removeInstrument p iid).patterns.find? (fun q => q.id == pid) = none →
        clipNoteEvents env bpm (removeInstrument p iid).patterns track clip = []) := by
  refine ⟨?_, ?_, ?_⟩
  · intro pat
    simp [removeInstrument, List.mem_filter]
  · intro t ht
    simp only [removeInstrument] at ht
    rcases List.mem_map.mp ht with ⟨s, _, hs⟩
    by_cases hcase : s.instrumentId = some iid
    · rw [if_pos hcase] at hs
      rw [← hs]
      simp
    · rw [if_neg hcase] at hs
      rw [← hs]
      exact hcase
  · intro env bpm track clip pid hbuf hpid hfind
    exact clipNoteEvents_of_find_none env bpm _ track clip pid hbuf hpid hfind

/-- Concrete instantiation of the amended removal claim on `c6Project`. -/
theorem removeInstrument_cascade_witness :
    ((⟨"p1", "P1", "#fff", 16, [⟨"n1", "C4", 0, 1, 100⟩], "inst1"⟩ : Pattern)
        ∈ (removeInstrument c6Project "inst1").patterns ↔
      (⟨"p1", "P1", "#fff", 16, [⟨"n1", "C4", 0, 1, 100⟩], "inst1"⟩ : Pattern)
          ∈ c6Project.patterns
        ∧ (⟨"p1", "P1", "#fff", 16, [⟨"n1", "C4", 0, 1, 100⟩], "inst1"⟩ : Pattern).instrumentId
          ≠ "inst1") :=
  (removeInstrument_cascade c6Project "inst1").1
    ⟨"p1", "P1", "#fff", 16, [⟨"n1", "C4", 0, 1, 100⟩], "inst1"⟩

/-! ## C5: note-off before note-on at identical time

The realtime compiler (`schedulePlaylist` / `schedulePattern`) emits each
note as one combined attack-release event and never produces separate
noteOff events, so there the ordering property is vacuous; the only code
that compiles a noteOn/noteOff event sequence and orders it is the MIDI
track builder `createMidiTrack` in `fileExport.ts`, embedded here. -/

/-- MIDI event kind, the `type: 'on' | 'off'` field. -/
inductive MidiEvtType where
  | noteOn
  | noteOff
deriving DecidableEq, Repr

/-- One entry of the `midiEvents` array in `createMidiTrack`. -/
structure MidiEvent where
  time : ℤ
  type : MidiEvtType
  midiNote : ℕ
  velocity : ℤ
deriving DecidableEq, Repr

/-- Semitone index of a note name, the `noteMap` lookup with the code's
`|| 0` default for names absent from the map. -/
def noteIndex (name : String) : ℕ :=
  if name = "C" then 0
  else if name = "C#" then 1
  else if name = "D" then 2
  else if name = "D#" then 3
  else if name = "E" then 4
  else if name = "F" then 5
  else if name = "F#" then 6
  else if name = "G" then 7
  else if name = "G#" then 8
  else if name = "A" then 9
  else if name = "A#" then 10
  else if name = "B" then 11
  else 0

/-- `noteToMidi`: parse `/^([A-G]#?)(\d)$/`, defaulting to 60 on mismatch,
and return `(octave + 1) * 12 + noteMap[noteName]`. -/
def noteToMidi (note : String) : ℕ :=
  match note.data with
  | [l, d] =>
    if 'A' ≤ l ∧ l ≤ 'G' ∧ d.isDigit then
      (d.toNat - Char.toNat '0' + 1) * 12 + noteIndex (String.mk [l])
    else 60
  | [l, s, d] =>
    if 'A' ≤ l ∧ l ≤ 'G' ∧ s = '#' ∧ d.isDigit then
      (d.toNat - Char.toNat '0' + 1) * 12 + noteIndex (String.mk [l, s])
    else 60
  | _ => 60

/-- The unsorted `midiEvents` array: per note, an `on` event at
`round(startTime * 96)` ticks and an `off` event at
`round((startTime + duration) * 96)` ticks with velocity 0. -/
def patternMidiEvents (pattern : Pattern) : List MidiEvent :=
  pattern.notes.flatMap (fun n =>
    [⟨round (n.startTime * 96), MidiEvtType.noteOn, noteToMidi n.note, round n.velocity⟩,
      ⟨round ((n.startTime + n.duration) * 96), MidiEvtType.noteOff, noteToMidi n.note, 0⟩])

/-- Comparator rank: the sort places `off` strictly before `on` at equal
times (`a.type === 'off' ? -1 : 1`). -/
def typeRank : MidiEvtType → ℕ
  | MidiEvtType.noteOff => 0
  | MidiEvtType.noteOn => 1

/-- The total preorder induced by the `midiEvents.sort` comparator:
primary key ascending tick time, secondary key `off` before `on`. -/
def midiEventLE (a b : MidiEvent) : Prop :=
  a.time < b.time ∨ (a.time = b.time ∧ typeRank a.type ≤ typeRank b.type)

instance : DecidableRel midiEventLE := fun a b => by
  unfold midiEventLE
  infer_instance

instance : IsTotal MidiEvent midiEventLE := by
  constructor
  intro a b
  unfold midiEventLE
  rcases lt_trichotomy a.time b.time with h | h | h
  · exact Or.inl (Or.inl h)
  · rcases Nat.le_total (typeRank a.type) (typeRank b.type) with h2 | h2
    · exact Or.inl (Or.inr ⟨h, h2⟩)
    · exact Or.inr (Or.inr ⟨h.symm, h2⟩)
  · exact Or.inr (Or.inl h)

instance : IsTrans MidiEvent midiEventLE := by
  constructor
  intro a b c hab hbc
  unfold midiEventLE at hab hbc ⊢
  rcases hab with h1 | ⟨h1, h2⟩ <;> rcases hbc with h3 | ⟨h3, h4⟩
  · exact Or.inl (lt_trans h1 h3)
  · exact Or.inl (lt_of_lt_of_eq h1 h3)
  · exact Or.inl (lt_of_eq_of_lt h1 h3)
  · exact Or.inr ⟨h1.trans h3, le_trans h2 h4⟩

/-- The sorted event list of `createMidiTrack` (the JS sort with a
consistent comparator, modelled by insertion sort). -/
def createMidiTrackEvents (pattern : Pattern) : List MidiEvent :=
  List.insertionSort midiEventLE (patternMidiEvents pattern)

/-- C5: in the compiled MIDI event sequence of any pattern, whenever two
events share the same tick time, no `on` event precedes an `off` event —
equivalently every same-time noteOff is ordered before every same-time
noteOn (for any pitch, so in particular for equal pitches); moreover the
sorted sequence is a permutation of the generated on/off events, so both
events of every note are present. -/
theorem midiEvents_noteOff_before_noteOn (pattern : Pattern) :
    (createMidiTrackEvents pattern).Pairwise
      (fun a b => a.time = b.time → a.type = MidiEvtType.noteOn → b.type = MidiEvtType.noteOn)
    ∧ (createMidiTrackEvents pattern).Perm (patternMidiEvents pattern) := by
  constructor
  · have hs : List.Sorted midiEventLE (createMidiTrackEvents pattern) :=
      List.sorted_insertionSort midiEventLE (patternMidiEvents pattern)
    refine List.Pairwise.imp ?_ hs
    intro a b hab heq hon
    rcases hab with h | ⟨_, h2⟩
    · exact absurd heq (ne_of_lt h)
    · rw [hon] at h2
      cases htb : b.type with
      | noteOn => rfl
      | noteOff =>
        rw [htb] at h2
        simp [typeRank] at h2
  · exact List.perm_insertionSort midiEventLE (patternMidiEvents pattern)

/-! ## C8: automation point mutations (`addAutomationPoint`, `updateAutomationPoint`) -/

/-- `Math.max(0, Math.min(1, value))`. -/
def clampQ (v : ℚ) : ℚ :=
  max 0 (min 1 v)

/-- Non-strict time order on points, the `(a, b) => a.time - b.time`
comparator of the store's `points.sort`. -/
def pointTimeLE (a b : AutomationPoint) : Prop :=
  a.time ≤ b.time

instance : DecidableRel pointTimeLE := fun a b => by
  unfold pointTimeLE
  infer_instance

instance : IsTotal AutomationPoint pointTimeLE :=
  ⟨fun a b => le_total a.time b.time⟩

instance : IsTrans AutomationPoint pointTimeLE :=
  ⟨fun _ _ _ h1 h2 => le_trans h1 h2⟩

/-- The in-place `points.sort((a, b) => a.time - b.time)`. -/
def sortPointsByTime (points : List AutomationPoint) : List AutomationPoint :=
  List.insertionSort pointTimeLE points

/-- Push the new point and re-sort, as `addAutomationPoint` does on the
found lane. -/
def addPointToLane (lane : AutomationLane) (point : AutomationPoint) : AutomationLane :=
  { lane with points := sortPointsByTime (lane.points ++ [point]) }

/-- Embedding of `useDAWStore.addAutomationPoint`: the point is created
with `value` clamped to `[0,1]`, appended to the matching lane, and the
lane's points re-sorted; a missing lane id mutates nothing. -/
def addAutomationPoint (p : Project) (laneId : String) (time value : ℚ)
    (curve : Curve) (newId : String) : Project :=
  { p with automationLanes := p.automationLanes.map (fun l =>
      if l.id = laneId then addPointToLane l ⟨newId, time, clampQ value, curve⟩ else l) }

/-- A `Partial<AutomationPoint>` update (id changes are not modelled). -/
structure AutomationPointUpdate where
  time : Option ℚ
  value : Option ℚ
  curve : Option Curve
deriving DecidableEq, Repr

/-- `Object.assign(point, updates)` followed by the clamp that runs
exactly when `updates.value !== undefined`. -/
def applyPointUpdate (pt : AutomationPoint) (upd : AutomationPointUpdate) : AutomationPoint :=
  { pt with
    time := upd.time.getD pt.time,
    curve := upd.curve.getD pt.curve,
    value := match upd.value with
      | some v => clampQ v
      | none => pt.value }

/-- Mutate the first point with the given id, as `points.find` +
`Object.assign` does. -/
def updateFirstPoint : List AutomationPoint → String → AutomationPointUpdate →
    List AutomationPoint
  | [], _, _ => []
  | pt :: rest, pid, upd =>
    if pt.id = pid then applyPointUpdate pt upd :: rest
    else pt :: updateFirstPoint rest pid upd

/-- Embedding of `useDAWStore.updateAutomationPoint`: on the matching
lane, if the point is found it is updated in place (value clamped when
supplied) and the lane re-sorted; otherwise nothing changes. -/
def updateAutomationPoint (p : Project) (laneId pointId : String)
    (upd : AutomationPointUpdate) : Project :=
  { p with automationLanes := p.automationLanes.map (fun l =>
      if l.id = laneId then
        match l.points.find? (fun pt => pt.id == pointId) with
        | none => l
        | some _ => { l with points := sortPointsByTime (updateFirstPoint l.points pointId upd) }
      else l) }

/-- The spec's lane invariant: points sorted by time ascending, every
value in `[0,1]`. -/
def laneWellFormed (l : AutomationLane) : Prop :=
  l.points.Pairwise pointTimeLE ∧ ∀ pt ∈ l.points, 0 ≤ pt.value ∧ pt.value ≤ 1

instance (l : AutomationLane) : Decidable (laneWellFormed l) := by
  unfold laneWellFormed
  infer_instance

lemma clampQ_bounds (v : ℚ) : 0 ≤ clampQ v ∧ clampQ v ≤ 1 := by
  unfold clampQ
  constructor
  · exact le_max_left 0 _
  · exact max_le (by norm_num) (min_le_left 1 v)

lemma mem_updateFirstPoint (pts : List AutomationPoint) (pid : String)
    (upd : AutomationPointUpdate) (q : AutomationPoint)
    (hq : q ∈ updateFirstPoint pts pid upd) :
    q ∈ pts ∨ ∃ pt ∈ pts, q = applyPointUpdate pt upd := by
  induction pts with
  | nil => simp [updateFirstPoint] at hq
  | cons pt rest ih =>
    unfold updateFirstPoint at hq
    by_cases hid : pt.id = pid
    · rw [if_pos hid] at hq
      rcases List.mem_cons.mp hq with h | h
      · exact Or.inr ⟨pt, List.mem_cons_self _ _, h⟩
      · exact Or.inl (List.mem_cons_of_mem _ h)
    · rw [if_neg hid] at hq
      rcases List.mem_cons.mp hq with h | h
      · exact Or.inl (h ▸ List.mem_cons_self _ _)
      · rcases ih h with h2 | ⟨pt2, hpt2, hq2⟩
        · exact Or.inl (List.mem_cons_of_mem _ h2)
        · exact Or.inr ⟨pt2, List.mem_cons_of_mem _ hpt2, hq2⟩

lemma applyPointUpdate_value_bounds (pt : AutomationPoint) (upd : AutomationPointUpdate)
    (hpt : 0 ≤ pt.value ∧ pt.value ≤ 1) :
    0 ≤ (applyPointUpdate pt upd).value ∧ (applyPointUpdate pt upd).value ≤ 1 := by
  unfold applyPointUpdate
  cases hv : upd.value with
  | none => simpa using hpt
  | some v => simpa using clampQ_bounds v

/-- C8: assuming every lane satisfies the invariant, both point mutations
preserve it — after `addAutomationPoint` or `updateAutomationPoint` every
lane's points are sorted by time ascending with all values in `[0,1]`;
the added point is stored with its value clamped (never rejected), and the
clamped value itself lies in `[0,1]`. -/
theorem automationPoint_mutations_invariant (p : Project)
    (laneId pointId newId : String) (time value : ℚ) (curve : Curve)
    (upd : AutomationPointUpdate)
    (hinv : ∀ l ∈ p.automationLanes, laneWellFormed l) :
    (∀ l ∈ (addAutomationPoint p laneId time value curve newId).automationLanes,
        laneWellFormed l)
    ∧ (∀ l ∈ (updateAutomationPoint p laneId pointId upd).automationLanes,
        laneWellFormed l)
    ∧ (0 ≤ clampQ value ∧ clampQ value ≤ 1)
    ∧ (∀ l ∈ p.automationLanes, l.id = laneId →
        (⟨newId, time, clampQ value, curve⟩ : AutomationPoint)
          ∈ (addPointToLane l ⟨newId, time, clampQ value, curve⟩).points) := by
  refine ⟨?_, ?_, clampQ_bounds value, ?_⟩
  · intro l hl
    unfold addAutomationPoint at hl
    rcases List.mem_map.mp hl with ⟨l0, hl0, hmap⟩
    by_cases hid : l0.id = laneId
    · rw [if_pos hid] at hmap
      rw [← hmap]
      constructor
      · exact List.sorted_insertionSort pointTimeLE _
      · intro pt hpt
        have hperm : (sortPointsByTime (l0.points ++ [⟨newId, time, clampQ value, curve⟩])).Perm
            (l0.points ++ [⟨newId, time, clampQ value, curve⟩]) :=
          List.perm_insertionSort pointTimeLE _
        have hpt2 := hperm.mem_iff.mp hpt
        rcases List.mem_append.mp hpt2 with h | h
        · exact (hinv l0 hl0).2 pt h
        · rw [List.mem_singleton.mp h]
          exact clampQ_bounds value
    · rw [if_neg hid] at hmap
      rw [← hmap]
      exact hinv l0 hl0
  · intro l hl
    unfold updateAutomationPoint at hl
    rcases List.mem_map.mp hl with ⟨l0, hl0, hmap⟩
    by_cases hid : l0.id = laneId
    · rw [if_pos hid] at hmap
      cases hfind : l0.points.find? (fun pt => pt.id == pointId) with
      | none =>
        rw [hfind] at hmap
        rw [← hmap]
        exact hinv l0 hl0
      | some pt0 =>
        rw [hfind] at hmap
        rw [← hmap]
        constructor
        · exact List.sorted_insertionSort pointTimeLE _
        · intro pt hpt
          have hperm : (sortPointsByTime (updateFirstPoint l0.points pointId upd)).Perm
              (updateFirstPoint l0.points pointId upd) :=
            List.perm_insertionSort pointTimeLE _
          have hpt2 := hperm.mem_iff.mp hpt
          rcases mem_updateFirstPoint l0.points pointId upd pt hpt2 with h | ⟨q, hq, hq2⟩
          · exact (hinv l0 hl0).2 pt h
          · rw [hq2]
            exact applyPointUpdate_value_bounds q upd ((hinv l0 hl0).2 q hq)
    · rw [if_neg hid] at hmap
      rw [← hmap]
      exact hinv l0 hl0
  · intro l _ _
    unfold addPointToLane
    have hperm : (sortPointsByTime (l.points ++ [⟨newId, time, clampQ value, curve⟩])).Perm
        (l.points ++ [⟨newId, time, clampQ value, curve⟩]) :=
      List.perm_insertionSort pointTimeLE _
    exact hperm.mem_iff.mpr (List.mem_append_right _ (List.mem_singleton.mpr rfl))

/-- Witness data: a project with one well-formed lane of two points. -/
def c8Project : Project :=
  ⟨"pr", "P", 120, [], [], [],
    [⟨"L1", "t1", AutomationTarget.volume, none,
      [⟨"a", 0, 0, Curve.linear⟩, ⟨"b", 4, 1, Curve.step⟩], true⟩], 1⟩

/-- Concrete instantiation: adding a point with out-of-range value 2 to
the witness lane keeps every lane sorted and in range (the value is
clamped to 1). -/
theorem automationPoint_mutations_invariant_witness :
    (∀ l ∈ c8Project.automationLanes, laneWellFormed l)
    ∧ ((∀ l ∈ (addAutomationPoint c8Project "L1" 2 2 Curve.linear "c").automationLanes,
          laneWellFormed l)
      ∧ (∀ l ∈ (updateAutomationPoint c8Project "L1" "a"
            ⟨none, some 2, none⟩).automationLanes, laneWellFormed l)
      ∧ (0 ≤ clampQ 2 ∧ clampQ 2 ≤ 1)
      ∧ (∀ l ∈ c8Project.automationLanes, l.id = "L1" →
          (⟨"c", 2, clampQ 2, Curve.linear⟩ : AutomationPoint)
            ∈ (addPointToLane l ⟨"c", 2, clampQ 2, Curve.linear⟩).points)) :=
  ⟨by decide,
    automationPoint_mutations_invariant c8Project "L1" "a" "c" 2 2 Curve.linear
      ⟨none, some 2, none⟩ (by decide)⟩

/-! ## C9: note mutations (`addNote`, `updateNote`) -/

/-- The `Omit<MidiNote, 'id'>` payload handed to `addNote`. -/
structure MidiNoteInput where
  note : String
  startTime : ℚ
  duration : ℚ
  velocity : ℚ
deriving DecidableEq, Repr

/-- Embedding of `useDAWStore.addNote`: the note is pushed verbatim (plus
a fresh id) onto the matching pattern — no clamping or validation. -/
def addNote (patterns : List Pattern) (patternId : String) (inp : MidiNoteInput)
    (newId : String) : List Pattern :=
  patterns.map (fun p =>
    if p.id = patternId then
      { p with notes := p.notes ++ [⟨newId, inp.note, inp.startTime, inp.duration, inp.velocity⟩] }
    else p)

/-- A `Partial<MidiNote>` update (id changes are not modelled). -/
structure MidiNoteUpdate where
  note : Option String
  startTime : Option ℚ
  duration : Option ℚ
  velocity : Option ℚ
deriving DecidableEq, Repr

/-- `Object.assign(note, updates)` — fields overwritten verbatim. -/
def applyNoteUpdate (n : MidiNote) (upd : MidiNoteUpdate) : MidiNote :=
  { n with
    note := upd.note.getD n.note,
    startTime := upd.startTime.getD n.startTime,
    duration := upd.duration.getD n.duration,
    velocity := upd.velocity.getD n.velocity }

/-- Mutate the first note with the given id (`notes.find` + assign). -/
def updateFirstNote : List MidiNote → String → MidiNoteUpdate → List MidiNote
  | [], _, _ => []
  | n :: rest, nid, upd =>
    if n.id = nid then applyNoteUpdate n upd :: rest
    else n :: updateFirstNote rest nid upd

/-- Embedding of `useDAWStore.updateNote`. -/
def updateNote (patterns : List Pattern) (patternId noteId : String)
    (upd : MidiNoteUpdate) : List Pattern :=
  patterns.map (fun p =>
    if p.id = patternId then { p with notes := updateFirstNote p.notes noteId upd }
    else p)

/-- Witness data: a pattern with no notes. -/
def c9Pattern : Pattern :=
  ⟨"p1", "P1", "#fff", 16, [], "inst1"⟩

/-- C9 fails on the code: `addNote` stores an out-of-range velocity 200
verbatim — the store performs no clamping (the `[1,127]` clamp lives in
the piano-roll UI, not in the mutation). -/
theorem addNote_no_clamping_counterexample :
    ∃ p ∈ addNote [c9Pattern] "p1" ⟨"C4", 0, 1, 200⟩ "n1",
      ∃ n ∈ p.notes, n.velocity = 200 ∧ ¬ n.velocity ≤ 127 := by
  decide

lemma mem_updateFirstNote (notes : List MidiNote) (nid : String)
    (upd : MidiNoteUpdate) (q : MidiNote)
    (hq : q ∈ updateFirstNote notes nid upd) :
    q ∈ notes ∨ ∃ n ∈ notes, q = applyNoteUpdate n upd := by
  induction notes with
  | nil => simp [updateFirstNote] at hq
  | cons n rest ih =>
    unfold updateFirstNote at hq
    by_cases hid : n.id = nid
    · rw [if_pos hid] at hq
      rcases List.mem_cons.mp hq with h | h
      · exact Or.inr ⟨n, List.mem_cons_self _ _, h⟩
      · exact Or.inl (List.mem_cons_of_mem _ h)
    · rw [if_neg hid] at hq
      rcases List.mem_cons.mp hq with h | h
      · exact Or.inl (h ▸ List.mem_cons_self _ _)
      · rcases ih h with h2 | ⟨n2, hn2, hq2⟩
        · exact Or.inl (List.mem_cons_of_mem _ h2)
        · exact Or.inr ⟨n2, List.mem_cons_of_mem _ hn2, hq2⟩

/-- C9 amended: the store's `addNote`/`updateNote` store the supplied
fields verbatim with no clamping, so the velocity/duration invariant holds
after a mutation exactly when the inputs already satisfy it: given all
stored notes in range, `addNote` preserves the invariant iff fed an
in-range input, and `updateNote` preserves it when any supplied velocity
lies in `[0,127]` and any supplied duration is positive; the note stored
by `addNote` carries exactly the input's fields. -/
theorem note_mutations_verbatim (patterns : List Pattern)
    (patternId noteId newId : String) (inp : MidiNoteInput) (upd : MidiNoteUpdate)
    (hinv : ∀ p ∈ patterns, ∀ n ∈ p.notes,
      0 ≤ n.velocity ∧ n.velocity ≤ 127 ∧ 0 < n.duration) :
    ((0 ≤ inp.velocity ∧ inp.velocity ≤ 127 ∧ 0 < inp.duration) →
      ∀ p ∈ addNote patterns patternId inp newId, ∀ n ∈ p.notes,
        0 ≤ n.velocity ∧ n.velocity ≤ 127 ∧ 0 < n.duration)
    ∧ ((∀ v, upd.velocity = some v → 0 ≤ v ∧ v ≤ 127) →
        (∀ d, upd.duration = some d → 0 < d) →
        ∀ p ∈ updateNote patterns patternId noteId upd, ∀ n ∈ p.notes,
          0 ≤ n.velocity ∧ n.velocity ≤ 127 ∧ 0 < n.duration)
    ∧ (∀ p0 ∈ patterns, p0.id = patternId →
        ∃ p ∈ addNote patterns patternId inp newId,
          p.notes = p0.notes ++ [⟨newId, inp.note, inp.startTime, inp.duration, inp.velocity⟩]) := by
  refine ⟨?_, ?_, ?_⟩
  · intro hin p hp n hn
    unfold addNote at hp
    rcases List.mem_map.mp hp with ⟨p0, hp0, hmap⟩
    by_cases hid : p0.id = patternId
    · rw [if_pos hid] at hmap
      rw [← hmap] at hn
      rcases List.mem_append.mp hn with h | h
      · exact hinv p0 hp0 n h
      · rw [List.mem_singleton.mp h]
        exact hin
    · rw [if_neg hid] at hmap
      rw [← hmap] at hn
      exact hinv p0 hp0 n hn
  · intro hv hd p hp n hn
    unfold updateNote at hp
    rcases List.mem_map.mp hp with ⟨p0, hp0, hmap⟩
    by_cases hid : p0.id = patternId
    · rw [if_pos hid] at hmap
      rw [← hmap] at hn
      rcases mem_updateFirstNote p0.notes noteId upd n hn with h | ⟨m, hm, hq⟩
      · exact hinv p0 hp0 n h
      · have hmb := hinv p0 hp0 m hm
        rw [hq]
        unfold applyNoteUpdate
        refine ⟨?_, ?_, ?_⟩
        · cases hvv : upd.velocity with
          | none => simpa using hmb.1
          | some v => simpa using (hv v hvv).1
        · cases hvv : upd.velocity with
          | none => simpa using hmb.2.1
          | some v => simpa using (hv v hvv).2
        · cases hdd : upd.duration with
          | none => simpa using hmb.2.2
          | some d => simpa using hd d hdd
    · rw [if_neg hid] at hmap
      rw [← hmap] at hn
      exact hinv p0 hp0 n hn
  · intro p0 hp0 hid
    refine ⟨{ p0 with
        notes := p0.notes ++ [⟨newId, inp.note, inp.startTime, inp.duration, inp.velocity⟩] },
      ?_, rfl⟩
    unfold addNote
    refine List.mem_map.mpr ⟨p0, hp0, ?_⟩
    rw [if_pos hid]

/-- Witness data: the pattern list for the amended note claim. -/
def c9bPattern : Pattern :=
  ⟨"p2", "P2", "#abc", 16, [⟨"n0", "E4", 0, 1, 64⟩], "inst1"⟩

/-- Concrete instantiation of the amended note-mutation claim. -/
theorem note_mutations_verbatim_witness :
    (∀ p ∈ [c9bPattern], ∀ n ∈ p.notes,
      0 ≤ n.velocity ∧ n.velocity ≤ 127 ∧ 0 < n.duration)
    ∧ ((0 ≤ (100 : ℚ) ∧ (100 : ℚ) ≤ 127 ∧ (0 : ℚ) < 2) →
        ∀ p ∈ addNote [c9bPattern] "p2" ⟨"C4", 0, 2, 100⟩ "n1", ∀ n ∈ p.notes,
          0 ≤ n.velocity ∧ n.velocity ≤ 127 ∧ 0 < n.duration) := by
  refine ⟨by decide, ?_⟩
  intro hin
  exact (note_mutations_verbatim [c9bPattern] "p2" "x" "n1" ⟨"C4", 0, 2, 100⟩
    ⟨none, none, none, none⟩ (by decide)).1 hin

/-! ## C10: pause/play resume (`useDAWStore.play`, `useDAWStore.pause`) -/

/-- Backend clock state (`Tone.Transport.state`). -/
inductive ClockState where
  | stopped
  | started
  | paused
deriving DecidableEq, Repr

/-- The observable backend state: clock, frozen position, the submitted
event sets, and a counter of schedule submissions (each
`schedulePlaylist` call clears and resubmits). -/
structure EngineState where
  clock : ClockState
  positionBeats : ℚ
  playlistEvents : List ClipNoteEvent
  automationEvents : List AutomEvent
  submitCount : ℕ
deriving DecidableEq, Repr

/-- Embedding of `useDAWStore.play`: it always calls `schedulePlaylist`
and `scheduleAutomation` (clearing and resubmitting the schedule) before
starting the transport clock; `Tone.Transport.start` resumes from the
current (frozen) position. -/
def storePlay (env : EngineEnv) (proj : Project) (es : EngineState) : EngineState :=
  { es with
    playlistEvents := schedulePlaylistEvents env proj.bpm proj.tracks proj.patterns,
    automationEvents := scheduleAutomationEvents env proj.bpm proj.automationLanes,
    submitCount := es.submitCount + 1,
    clock := ClockState.started }

/-- Embedding of `useDAWStore.pause`: freezes the clock, retaining
position and the submitted schedule. -/
def storePause (es : EngineState) : EngineState :=
  { es with clock := ClockState.paused }

/-- Embedding of `useDAWStore.stop`: halts the clock, resets the position
to 0 and clears the submitted schedule (`clearPlaylist`). -/
def storeStop (es : EngineState) : EngineState :=
  { es with
    clock := ClockState.stopped
    positionBeats := 0
    playlistEvents := []
    automationEvents := [] }

/-- Witness data: a playing engine state at beat 4 with one submission. -/
def c10State : EngineState :=
  ⟨ClockState.started, 4, [], [], 1⟩

/-- Witness data: an empty project and registry for the transport claims. -/
def c10Project : Project :=
  ⟨"pr", "P", 120, [], [], [], [], 1⟩

/-- Witness data: empty engine registry. -/
def c10Env : EngineEnv :=
  ⟨[], [], []⟩

/-- C10 fails on the code: resuming from pause resubmits the schedule —
`play()` unconditionally reruns `schedulePlaylist`/`scheduleAutomation`,
so the pause/play pair performs one more submission. -/
theorem pause_play_counterexample :
    (storePlay c10Env c10Project (storePause c10State)).submitCount
        ≠ c10State.submitCount
    ∧ (storePlay c10Env c10Project (storePause c10State)).submitCount
        = c10State.submitCount + 1 := by
  refine ⟨?_, rfl⟩
  decide

/-- C10 amended: `play()` from `Paused` restarts the clock at the frozen
position — the position is unchanged, and when the project is unchanged
the rebuilt schedule equals the previously submitted one — but the
schedule is rebuilt and resubmitted on every `play()` call. -/
theorem pause_play_resume (env : EngineEnv) (proj : Project) (es : EngineState) :
    (storePlay env proj (storePause es)).positionBeats = es.positionBeats
    ∧ (storePlay env proj (storePause es)).clock = ClockState.started
    ∧ (storePlay env proj (storePause es)).submitCount = es.submitCount + 1
    ∧ (es.playlistEvents = schedulePlaylistEvents env proj.bpm proj.tracks proj.patterns →
        (storePlay env proj (storePause es)).playlistEvents = es.playlistEvents)
    ∧ (es.automationEvents = scheduleAutomationEvents env proj.bpm proj.automationLanes →
        (storePlay env proj (storePause es)).automationEvents = es.automationEvents) :=
  ⟨rfl, rfl, rfl, fun h => h.symm, fun h => h.symm⟩

/-- Concrete instantiation of the amended pause/play claim. -/
theorem pause_play_resume_witness :
    (c10State.playlistEvents
        = schedulePlaylistEvents c10Env c10Project.bpm c10Project.tracks c10Project.patterns)
    ∧ (storePlay c10Env c10Project (storePause c10State)).positionBeats
        = c10State.positionBeats
    ∧ (storePlay c10Env c10Project (storePause c10State)).playlistEvents
        = c10State.playlistEvents :=
  ⟨rfl, (pause_play_resume c10Env c10Project c10State).1,
    (pause_play_resume c10Env c10Project c10State).2.2.2.1 rfl⟩

end Leojam
